import Mathlib

/-!
Verification of the stock-data ingestion/merge pipeline (src/scrape.py).

The Python module is shallowly embedded here:
* Python dicts are modelled as association lists (`List (String × v)`) with
  `dlookup` (key lookup, first match) and `dset` (in-place update of the
  first matching key, or append) — this matches CPython dict semantics of
  unique keys, insertion order, and in-place value replacement.
* Loosely-typed upstream values are the inductive `PyVal` (None, numbers,
  booleans, strings, lists, dicts).  Numbers are rationals: no claim below
  depends on float rounding.  `float(value)` coercion inside `clean_numeric`
  is modelled as succeeding exactly on numbers and booleans; parsing of
  numeric *strings* is not modelled, since no claim depends on it.
* Code that can raise is embedded in `Except Unit`; an exception caught by a
  `try/except` block in the source corresponds to matching on the `.error`
  branch at the same place.
* `datetime.now().isoformat()` is threaded through as an opaque `now : String`
  parameter.
-/

/-- Association-list lookup: the value stored at the first occurrence of key
`k` (Python `d[k]` / `d.get(k)` on a dict, where keys are unique). -/
def dlookup {v : Type} (d : List (String × v)) (k : String) : Option v :=
  match d with
  | [] => Option.none
  | p :: rest => if p.1 = k then some p.2 else dlookup rest k

/-- Association-list update: Python `d[k] = x` — replaces the value at the
first occurrence of `k`, or appends `(k, x)` if `k` is absent (CPython dicts
keep insertion order and update in place). -/
def dset {v : Type} : List (String × v) → String → v → List (String × v)
  | [], k, x => [(k, x)]
  | p :: rest, k, x => if p.1 = k then (k, x) :: rest else p :: dset rest k x

theorem dlookup_dset {v : Type} (d : List (String × v)) (k : String) (x : v) (k' : String) :
    dlookup (dset d k x) k' = if k = k' then some x else dlookup d k' := by
  induction d with
  | nil => simp [dset, dlookup]
  | cons p rest ih =>
    simp only [dset]
    by_cases hp : p.1 = k
    · by_cases h : k = k'
      · simp [dlookup, hp, h]
      · have hp' : ¬ p.1 = k' := fun he => h (hp.symm.trans he)
        simp [dlookup, hp, h, hp']
    · simp only [hp, if_false]
      by_cases hq : p.1 = k'
      · have hkk' : ¬ k = k' := fun he => hp (he.symm ▸ hq)
        simp [dlookup, hq, hkk']
      · simp [dlookup, hq, ih]

theorem dlookup_isSome_iff_mem_keys {v : Type} (d : List (String × v)) (k : String) :
    (dlookup d k).isSome ↔ k ∈ d.map Prod.fst := by
  induction d with
  | nil => simp [dlookup]
  | cons p rest ih =>
    by_cases h : p.1 = k
    · simp [dlookup, h]
    · have h' : ¬ k = p.1 := fun he => h he.symm
      simp [dlookup, h, h', ih]

theorem dlookup_eq_none_of_not_mem_keys {v : Type} (d : List (String × v)) (k : String)
    (h : k ∉ d.map Prod.fst) : dlookup d k = Option.none := by
  cases hd : dlookup d k with
  | none => rfl
  | some x =>
    exact absurd ((dlookup_isSome_iff_mem_keys d k).mp (by simp [hd])) h

/-- Loosely-typed Python values as returned by the upstream provider. -/
inductive PyVal where
  | pynone : PyVal
  | num : ℚ → PyVal
  | bool : Bool → PyVal
  | str : String → PyVal
  | list : List PyVal → PyVal
  | dict : List (String × PyVal) → PyVal

/-- Operation `safe_get(d, key, default=None)` (scrape.py:36): dictionary get with a
default; never raises on a dict. -/
def safe_get (d : List (String × PyVal)) (key : String)
    (default : PyVal := PyVal.pynone) : PyVal :=
  (dlookup d key).getD default

/-- Operation `clean_numeric(value, default=0.0)` (scrape.py:44): attempt `float(value)`;
return the default on failure.  `float` succeeds on numbers and booleans and
raises on None/lists/dicts; numeric-string parsing is not modelled (no claim
depends on it, and the strings the pipeline feeds here are non-numeric). -/
def clean_numeric (value : PyVal) (default : ℚ := 0) : ℚ :=
  match value with
  | PyVal.num q => q
  | PyVal.bool b => if b then 1 else 0
  | _ => default

/-- Python `str.strip()`: remove leading and trailing whitespace. -/
def py_strip (s : String) : String :=
  String.mk (((s.data.dropWhile Char.isWhitespace).reverse.dropWhile
    Char.isWhitespace).reverse)

/-- Operation `clean_text(value, default=None)` (scrape.py:55): the stripped string if
`value` is a string whose strip is truthy (non-empty), else the default. -/
def clean_text (value : PyVal) (default : PyVal := PyVal.pynone) : PyVal :=
  match value with
  | PyVal.str s => if py_strip s ≠ "" then PyVal.str (py_strip s) else default
  | _ => default

/-- Operation `clean_list(value, default=None)` (scrape.py:64): `value` if it is a list,
else `default or []` (a None / empty default degrades to the empty list). -/
def clean_list (value : PyVal) (default : Option (List PyVal) := Option.none) :
    List PyVal :=
  match value with
  | PyVal.list l => l
  | _ => default.getD []

/-- Python `int(q)` applied to a float: truncation toward zero. -/
def py_int (q : ℚ) : Int :=
  if q < 0 then -((-q).floor) else q.floor

/-- Structural worker for `chunk_tickers`: the fuel argument only makes the
slicing loop structurally recursive; `l.length` fuel is always enough because
each iteration drops at least one element (chunk size ≥ 1). -/
def chunk_go {α : Type} : Nat → List α → Nat → List (List α)
  | 0, _, _ => []
  | _, [], _ => []
  | fuel + 1, l, k => l.take k :: chunk_go fuel (l.drop k) k

/-- Operation `chunk_tickers(tickers, chunk_size=3)` (scrape.py:77): successive slices
`tickers[i:i+k]` for `i in range(0, len(tickers), k)`.  Python's `range`
raises for step 0; this embedding returns `[]` there (no caller and no claim
uses chunk size 0). -/
def chunk_tickers {α : Type} (tickers : List α) (chunk_size : Nat) : List (List α) :=
  if chunk_size = 0 then [] else chunk_go tickers.length tickers chunk_size

theorem cons_drop_length_le {α : Type} (a : α) (as : List α) (k n : Nat)
    (hl : (a :: as).length ≤ n + 1) (hk : 1 ≤ k) : ((a :: as).drop k).length ≤ n := by
  rw [List.length_drop]
  simp only [List.length_cons] at hl ⊢
  omega

theorem chunk_go_flatten {α : Type} :
    ∀ (fuel : Nat) (l : List α) (k : Nat), l.length ≤ fuel → 1 ≤ k →
      (chunk_go fuel l k).flatten = l := by
  intro fuel
  induction fuel with
  | zero =>
    intro l k hl _
    have : l = [] := List.length_eq_zero.mp (Nat.le_antisymm hl (Nat.zero_le _))
    simp [this, chunk_go]
  | succ n ih =>
    intro l k hl hk
    cases l with
    | nil => simp [chunk_go]
    | cons a as =>
      simp only [chunk_go, List.flatten_cons]
      rw [ih _ k (cons_drop_length_le a as k n hl hk) hk, List.take_append_drop]

theorem chunk_go_mem {α : Type} :
    ∀ (fuel : Nat) (l : List α) (k : Nat), l.length ≤ fuel → 1 ≤ k →
      ∀ g ∈ chunk_go fuel l k, g ≠ [] ∧ g.length ≤ k := by
  intro fuel
  induction fuel with
  | zero =>
    intro l k _ _ g hg
    simp [chunk_go] at hg
  | succ n ih =>
    intro l k hl hk g hg
    cases l with
    | nil => simp [chunk_go] at hg
    | cons a as =>
      simp only [chunk_go, List.mem_cons] at hg
      cases hg with
      | inl h =>
        subst h
        constructor
        · cases k with
          | zero => omega
          | succ m => simp [List.take]
        · rw [List.length_take]
          exact Nat.min_le_left _ _
      | inr h =>
        exact ih _ k (cons_drop_length_le a as k n hl hk) hk g h

theorem chunk_go_map_length {α β : Type} :
    ∀ (fuel : Nat) (l : List α) (l' : List β) (k : Nat),
      l.length = l'.length →
      (chunk_go fuel l k).map List.length = (chunk_go fuel l' k).map List.length := by
  intro fuel
  induction fuel with
  | zero => intro l l' k _; simp [chunk_go]
  | succ n ih =>
    intro l l' k hlen
    cases l with
    | nil =>
      have : l' = [] := List.length_eq_zero.mp (hlen ▸ rfl)
      simp [this, chunk_go]
    | cons a as =>
      cases l' with
      | nil => simp at hlen
      | cons b bs =>
        simp only [chunk_go, List.map, List.length_take, hlen]
        rw [ih _ _ k (by rw [List.length_drop, List.length_drop, hlen])]

theorem chunk_tickers_flatten {α : Type} (l : List α) (k : Nat) (hk : 1 ≤ k) :
    (chunk_tickers l k).flatten = l := by
  have : ¬ k = 0 := by omega
  simp only [chunk_tickers, this, if_false]
  exact chunk_go_flatten l.length l k (le_refl _) hk

theorem chunk_tickers_mem {α : Type} (l : List α) (k : Nat) (hk : 1 ≤ k) :
    ∀ g ∈ chunk_tickers l k, g ≠ [] ∧ g.length ≤ k := by
  have : ¬ k = 0 := by omega
  simp only [chunk_tickers, this, if_false]
  exact chunk_go_mem l.length l k (le_refl _) hk

theorem mem_flatten_chunk_tickers {α : Type} (l : List α) (k : Nat) (hk : 1 ≤ k)
    (t : α) (ht : t ∈ l) : ∃ c ∈ chunk_tickers l k, t ∈ c := by
  rw [← chunk_tickers_flatten l k hk] at ht
  simpa using List.mem_flatten.mp ht

/-- One row of the `recommendation_trend` DataFrame, as produced by
`sub_df.to_dict(orient='records')` (scrape.py:256): a dict with a `period`
column and the five analyst counts.  `Option.none` models an absent key, so
the all-`none` row is Python's empty-dict defensive fallback `{}`
(scrape.py:263); `interpret_recommendation` is only ever applied to such row
dicts, so its non-dict `isinstance` guard (scrape.py:220) is represented by
the type itself. -/
structure RecRow where
  period : Option String := Option.none
  strongBuy : Option Int := Option.none
  buy : Option Int := Option.none
  hold : Option Int := Option.none
  sell : Option Int := Option.none
  strongSell : Option Int := Option.none
deriving DecidableEq

/-- The empty-dict fallback row `{}` of scrape.py:263. -/
def emptyRow : RecRow := {}

/-- Table `label_map` of scrape.py:222: display label per recommendation key. -/
def label_map : List (String × String) :=
  [("strongBuy", "Strong Buy"), ("buy", "Buy"), ("hold", "Hold"),
   ("sell", "Sell"), ("strongSell", "Strong Sell")]

/-- The five `(key, count)` pairs built at scrape.py:229-240, in declaration
order, with `counts.get(key, 0)` defaulting each absent count to 0. -/
def counts_list (counts : RecRow) : List (String × Int) :=
  [("strongBuy", counts.strongBuy.getD 0), ("buy", counts.buy.getD 0),
   ("hold", counts.hold.getD 0), ("sell", counts.sell.getD 0),
   ("strongSell", counts.strongSell.getD 0)]

/-- Operation `interpret_recommendation(counts)` (scrape.py:219): build the ordered
count mapping, take `max(mapping, key=mapping.get)` — CPython `max` iterates
in insertion order and replaces the current best only on a strictly greater
value, so the first key achieving the maximum wins — and map the winning key
through `label_map` (defaulting to "Unknown"). -/
def interpret_recommendation (counts : RecRow) : String :=
  match counts_list counts with
  | [] => "Unknown"
  | p :: rest =>
    (dlookup label_map
      (rest.foldl (fun best q => if q.2 > best.2 then q else best) p).1).getD "Unknown"

/-- CPython `max(..., key=...)` semantics over a nonempty pair list: the fold
returns an element of the list whose value bounds every value in the list and
strictly exceeds every value occurring before it. -/
theorem foldl_pymax_split {p : String × Int} {l : List (String × Int)} :
    ∃ l1 b l2, p :: l = l1 ++ b :: l2 ∧
      l.foldl (fun best q => if q.2 > best.2 then q else best) p = b ∧
      (∀ q ∈ p :: l, q.2 ≤ b.2) ∧ (∀ q ∈ l1, q.2 < b.2) := by
  induction l generalizing p with
  | nil =>
    exact ⟨[], p, [], by simp, by simp [List.foldl], by simp, by simp⟩
  | cons q rest ih =>
    by_cases h : q.2 > p.2
    · obtain ⟨l1, b, l2, heq, hfold, hmax, hpre⟩ := @ih q
      have hqb : q.2 ≤ b.2 := hmax q (List.mem_cons_self q rest)
      refine ⟨p :: l1, b, l2, by simp [heq], ?_, ?_, ?_⟩
      · simp only [List.foldl, if_pos h]
        exact hfold
      · intro x hx
        rcases List.mem_cons.mp hx with hx | hx
        · subst hx; omega
        · exact hmax x hx
      · intro x hx
        rcases List.mem_cons.mp hx with hx | hx
        · subst hx; omega
        · exact hpre x hx
    · obtain ⟨l1, b, l2, heq, hfold, hmax, hpre⟩ := @ih p
      have hpb : p.2 ≤ b.2 := hmax p (List.mem_cons_self p rest)
      have hfold' :
          (q :: rest).foldl (fun best q => if q.2 > best.2 then q else best) p = b := by
        simp only [List.foldl, if_neg h]
        exact hfold
      cases l1 with
      | nil =>
        simp only [List.nil_append, List.cons.injEq] at heq
        refine ⟨[], b, q :: l2, ?_, hfold', ?_, by simp⟩
        · simp [← heq.1, ← heq.2]
        · intro x hx
          rcases List.mem_cons.mp hx with hx | hx
          · subst hx; exact hpb
          · rcases List.mem_cons.mp hx with hx | hx
            · subst hx; omega
            · exact hmax x (List.mem_cons_of_mem p hx)
      | cons c l1' =>
        simp only [List.cons_append, List.cons.injEq] at heq
        have hcb : c.2 < b.2 := hpre c (List.mem_cons_self c l1')
        have hpltb : p.2 < b.2 := heq.1 ▸ hcb
        refine ⟨p :: q :: l1', b, l2, ?_, hfold', ?_, ?_⟩
        · simp [heq.2]
        · intro x hx
          rcases List.mem_cons.mp hx with hx | hx
          · subst hx; exact hpb
          · rcases List.mem_cons.mp hx with hx | hx
            · subst hx; omega
            · exact hmax x (List.mem_cons_of_mem p hx)
        · intro x hx
          rcases List.mem_cons.mp hx with hx | hx
          · subst hx; exact hpltb
          · rcases List.mem_cons.mp hx with hx | hx
            · subst hx; omega
            · exact hpre x (List.mem_cons_of_mem c hx)

/-- The `recommendation_trend` DataFrame for one chunk: a two-level index
(symbol, period-row).  `rows` are the data rows in table order with their
level-0 symbol; `levels0` is `df.index.levels[0]` — pandas keeps the level
values as index metadata, which the code consults for membership
(scrape.py:248) independently of the rows themselves. -/
structure RecDF where
  rows : List (String × RecRow)
  levels0 : List String
deriving DecidableEq

/-- Selection `df.xs(ticker_sym, level=0)` followed by `to_dict(orient='records')`
(scrape.py:254-256): the rows of the symbol, in table order. -/
def df_xs (df : RecDF) (ticker_sym : String) : List RecRow :=
  (df.rows.filter (fun p => p.1 == ticker_sym)).map Prod.snd

/-- Result shape of `process_recommendation_trend` (scrape.py:266-269). -/
structure RecDetails where
  recommendation_trend : List RecRow
  computed_recommendation : String
deriving DecidableEq

/-- Operation `process_recommendation_trend(df, ticker_sym)` (scrape.py:244): `No Data`
when the frame is empty or the symbol is not in the level-0 index; otherwise
select the `'0m'` row, falling back to the first row, falling back to the
empty dict, and interpret it. -/
def process_recommendation_trend (df : RecDF) (ticker_sym : String) : RecDetails :=
  if df.rows.isEmpty ∨ ticker_sym ∉ df.levels0 then
    ⟨[], "No Data"⟩
  else
    let rec_list := df_xs df ticker_sym
    let row_0m :=
      match rec_list.find? (fun x => x.period == some "0m") with
      | some r => r
      | Option.none =>
        match rec_list with
        | y :: _ => y
        | [] => emptyRow
    ⟨rec_list, interpret_recommendation row_0m⟩

/-- The `full_analysis` dict built at scrape.py:303-308; all four keys are
statically present, so it is modelled as a structure. -/
structure FullAnalysis where
  recommendation_trend : List RecRow
  computed_recommendation : String
  earnings_trend : PyVal
  index_trend : PyVal

/-- Python `value.get(key, default)`: succeeds only on dicts (an error-string
or other non-dict upstream value makes `.get` raise `AttributeError`, which
the per-symbol handler catches). -/
def py_get (value : PyVal) (key : String) (default : PyVal := PyVal.pynone) :
    Except Unit PyVal :=
  match value with
  | PyVal.dict d => Except.ok ((dlookup d key).getD default)
  | _ => Except.error ()

/-- The generator scan `next((item for item in trend_list if item.get('period')
== '+1q'), {})` over an already-iterable list: stops at the first matching
dict; raises at the first non-dict item it has to inspect; defaults to `{}`
when exhausted. -/
def next_quarter_scan (items : List PyVal) : Except Unit PyVal :=
  match items with
  | [] => Except.ok (PyVal.dict [])
  | x :: rest =>
    match x with
    | PyVal.dict d =>
      match dlookup d "period" with
      | some (PyVal.str s) =>
        if s = "+1q" then Except.ok x else next_quarter_scan rest
      | _ => next_quarter_scan rest
    | _ => Except.error ()

/-- Iterating `trend_list` in the generator: lists iterate their items;
strings iterate characters and dicts iterate keys, so any non-empty one
raises at the first `item.get` (character / key strings have no `.get`),
while empty ones exhaust to the `{}` default; None/numbers/booleans are not
iterable at all. -/
def iter_trend_list (trend_list : PyVal) : Except Unit PyVal :=
  match trend_list with
  | PyVal.list items => next_quarter_scan items
  | PyVal.str s => if s = "" then Except.ok (PyVal.dict []) else Except.error ()
  | PyVal.dict [] => Except.ok (PyVal.dict [])
  | _ => Except.error ()

/-- Operation `create_summary(full_info)` (scrape.py:271): P/E and PEG read straight
from `index_trend` (no numeric coercion, absent → None), next-quarter growth
scanned out of the earnings trend, recommendation carried through verbatim.
Raises (→ `.error`) when `index_trend`, the earnings trend, or a scanned
trend item is not a dict. -/
def create_summary (full_info : FullAnalysis) : Except Unit PyVal := do
  let rec_recommendation := full_info.computed_recommendation
  let idx_trend := full_info.index_trend
  let pe_ratio ← py_get idx_trend "peRatio"
  let peg_ratio ← py_get idx_trend "pegRatio"
  let ticker_earnings := full_info.earnings_trend
  let trend_list ← py_get ticker_earnings "trend" (PyVal.list [])
  let next_quarter ← iter_trend_list trend_list
  let next_q_growth ← py_get next_quarter "growth"
  Except.ok (PyVal.dict
    [("recommendation", PyVal.str rec_recommendation),
     ("pe_ratio", pe_ratio), ("peg_ratio", peg_ratio),
     ("next_quarter_growth", next_q_growth)])

/-- Rendering of one recommendation row back into the loose value world (rows
are dicts; absent columns are absent keys). -/
def row_to_py (r : RecRow) : PyVal :=
  PyVal.dict
    ((match r.period with | some s => [("period", PyVal.str s)] | Option.none => []) ++
     (match r.strongBuy with | some n => [("strongBuy", PyVal.num n)] | Option.none => []) ++
     (match r.buy with | some n => [("buy", PyVal.num n)] | Option.none => []) ++
     (match r.hold with | some n => [("hold", PyVal.num n)] | Option.none => []) ++
     (match r.sell with | some n => [("sell", PyVal.num n)] | Option.none => []) ++
     (match r.strongSell with | some n => [("strongSell", PyVal.num n)] | Option.none => []))

/-- The `full_data` dict of scrape.py:303-308 as a loose value. -/
def full_analysis_py (f : FullAnalysis) : PyVal :=
  PyVal.dict
    [("recommendation_trend", PyVal.list (f.recommendation_trend.map row_to_py)),
     ("computed_recommendation", PyVal.str f.computed_recommendation),
     ("earnings_trend", f.earnings_trend),
     ("index_trend", f.index_trend)]

/-- The sentinel written on a per-symbol analysis-assembly failure
(scrape.py:321-327). -/
def error_analysis (now : String) : PyVal :=
  PyVal.dict
    [("full_data", PyVal.dict []),
     ("summary", PyVal.dict [("recommendation", PyVal.str "Error")]),
     ("timestamp", PyVal.str now)]

/-- The body of the per-symbol `try` block of scrape.py:297-318: process the
recommendation trend, pull the symbol's earnings/index records (raising when
the chunk-level value is not a dict), build `full_data`, condense the
summary, and wrap with the timestamp. -/
def assemble_analysis (df : RecDF) (earnings_data index_data : PyVal)
    (ticker now : String) : Except Unit PyVal := do
  let rec_details := process_recommendation_trend df ticker
  let ticker_earnings ← py_get earnings_data ticker (PyVal.dict [])
  let ticker_index ← py_get index_data ticker (PyVal.dict [])
  let full_analysis : FullAnalysis :=
    ⟨rec_details.recommendation_trend, rec_details.computed_recommendation,
     ticker_earnings, ticker_index⟩
  let simplified ← create_summary full_analysis
  Except.ok (PyVal.dict
    [("full_data", full_analysis_py full_analysis),
     ("summary", simplified),
     ("timestamp", PyVal.str now)])

/-- Value stored at `results[ticker]`: the assembled record, or the `"Error"`
sentinel when assembly raised (scrape.py:319-327). -/
def analysis_symbol_value (df : RecDF) (earnings_data index_data : PyVal)
    (ticker now : String) : PyVal :=
  match assemble_analysis df earnings_data index_data ticker now with
  | Except.ok a => a
  | Except.error _ => error_analysis now

/-- Outcome of one upstream batch accessor (`Ticker(chunk).price`, etc.): the
accessor itself may raise, or it returns a loose value (usually a symbol-keyed
dict, but the provider can also return e.g. an error string for the batch). -/
inductive Fetched where
  | raises : Fetched
  | val : PyVal → Fetched

/-- Outcome of `Ticker(chunk).recommendation_trend` (a DataFrame). -/
inductive DFFetched where
  | raises : DFFetched
  | val : RecDF → DFFetched

/-- The record built for one ticker in `fetch_live_data`'s per-symbol `try`
(scrape.py:104-112): `market_data = price_data.get(ticker, {})` followed by
field cleaning.  Raises (caught by the handler, symbol omitted) when
`market_data` is not a dict. -/
def build_live (market_data : PyVal) (now : String) : Except Unit PyVal :=
  match market_data with
  | PyVal.dict md =>
    Except.ok (PyVal.dict
      [("price", PyVal.num (clean_numeric (safe_get md "regularMarketPrice"))),
       ("change", PyVal.num (clean_numeric (safe_get md "regularMarketChange"))),
       ("percent_change", PyVal.num (clean_numeric (safe_get md "regularMarketChangePercent"))),
       ("timestamp", PyVal.str now)])
  | _ => Except.error ()

/-- One ticker of the per-symbol loop of `fetch_live_data`: `price_data.get`
raises when the chunk value is not a dict; either failure is caught and the
symbol is simply omitted from the results. -/
def live_symbol_value (price_data : PyVal) (now ticker : String) : Option PyVal :=
  match price_data with
  | PyVal.dict d =>
    match build_live ((dlookup d ticker).getD (PyVal.dict [])) now with
    | Except.ok v => some v
    | Except.error _ => Option.none
  | _ => Option.none

/-- Chunk loop of `fetch_live_data` (scrape.py:96-115).  The accessor
`ticker_obj.price` on line 100 is *outside* the per-symbol `try`, so a raising
batch request propagates (`Except.error`) and later chunks are not reached. -/
def fetch_live_go (priceUp : List String → Fetched) (now : String) :
    List (List String) → List (String × PyVal) → Except Unit (List (String × PyVal))
  | [], results => Except.ok results
  | c :: rest, results =>
    match priceUp c with
    | Fetched.raises => Except.error ()
    | Fetched.val price_data =>
      fetch_live_go priceUp now rest
        (c.foldl
          (fun acc ticker =>
            match live_symbol_value price_data now ticker with
            | some v => dset acc ticker v
            | Option.none => acc)
          results)

/-- Operation `fetch_live_data(tickers)` (scrape.py:88): chunked live fetch. -/
def fetch_live_data (tickers : List String) (priceUp : List String → Fetched)
    (now : String) : Except Unit (List (String × PyVal)) :=
  fetch_live_go priceUp now (chunk_tickers tickers 3) []

/-- The record built for one ticker in `fetch_daily_data` (scrape.py:131-143). -/
def build_daily (summary_detail : PyVal) (now : String) : Except Unit PyVal :=
  match summary_detail with
  | PyVal.dict sd =>
    Except.ok (PyVal.dict
      [("open", PyVal.num (clean_numeric (safe_get sd "open"))),
       ("previous_close", PyVal.num (clean_numeric (safe_get sd "previousClose"))),
       ("day_high", PyVal.num (clean_numeric (safe_get sd "dayHigh"))),
       ("day_low", PyVal.num (clean_numeric (safe_get sd "dayLow"))),
       ("volume", PyVal.num (py_int (clean_numeric (safe_get sd "volume")))),
       ("market_cap", PyVal.num (py_int (clean_numeric (safe_get sd "marketCap")))),
       ("trailing_pe", PyVal.num (clean_numeric (safe_get sd "trailingPE"))),
       ("forward_pe", PyVal.num (clean_numeric (safe_get sd "forwardPE"))),
       ("timestamp", PyVal.str now)])
  | _ => Except.error ()

def daily_symbol_value (summary_detail_data : PyVal) (now ticker : String) : Option PyVal :=
  match summary_detail_data with
  | PyVal.dict d =>
    match build_daily ((dlookup d ticker).getD (PyVal.dict [])) now with
    | Except.ok v => some v
    | Except.error _ => Option.none
  | _ => Option.none

/-- Chunk loop of `fetch_daily_data` (scrape.py:124-147); as with live data,
`ticker_obj.summary_detail` (line 127) sits outside the per-symbol `try`. -/
def fetch_daily_go (sdUp : List String → Fetched) (now : String) :
    List (List String) → List (String × PyVal) → Except Unit (List (String × PyVal))
  | [], results => Except.ok results
  | c :: rest, results =>
    match sdUp c with
    | Fetched.raises => Except.error ()
    | Fetched.val summary_detail_data =>
      fetch_daily_go sdUp now rest
        (c.foldl
          (fun acc ticker =>
            match daily_symbol_value summary_detail_data now ticker with
            | some v => dset acc ticker v
            | Option.none => acc)
          results)

/-- Operation `fetch_daily_data(tickers)` (scrape.py:118). -/
def fetch_daily_data (tickers : List String) (sdUp : List String → Fetched)
    (now : String) : Except Unit (List (String × PyVal)) :=
  fetch_daily_go sdUp now (chunk_tickers tickers 3) []

/-- The record built for one ticker in `fetch_fundamental_data`
(scrape.py:163-173). -/
def build_fundamental (info : PyVal) (now : String) : Except Unit PyVal :=
  match info with
  | PyVal.dict i =>
    Except.ok (PyVal.dict
      [("sector", clean_text (safe_get i "sector")),
       ("industry", clean_text (safe_get i "industry")),
       ("full_time_employees", PyVal.num (py_int (clean_numeric (safe_get i "fullTimeEmployees")))),
       ("country", clean_text (safe_get i "country")),
       ("website", clean_text (safe_get i "website")),
       ("description", clean_text (safe_get i "longBusinessSummary")),
       ("timestamp", PyVal.str now)])
  | _ => Except.error ()

def fundamental_symbol_value (asset_profile_data : PyVal) (now ticker : String) :
    Option PyVal :=
  match asset_profile_data with
  | PyVal.dict d =>
    match build_fundamental ((dlookup d ticker).getD (PyVal.dict [])) now with
    | Except.ok v => some v
    | Except.error _ => Option.none
  | _ => Option.none

/-- Chunk loop of `fetch_fundamental_data` (scrape.py:156-176);
`ticker_obj.asset_profile` (line 159) sits outside the per-symbol `try`. -/
def fetch_fundamental_go (apUp : List String → Fetched) (now : String) :
    List (List String) → List (String × PyVal) → Except Unit (List (String × PyVal))
  | [], results => Except.ok results
  | c :: rest, results =>
    match apUp c with
    | Fetched.raises => Except.error ()
    | Fetched.val asset_profile_data =>
      fetch_fundamental_go apUp now rest
        (c.foldl
          (fun acc ticker =>
            match fundamental_symbol_value asset_profile_data now ticker with
            | some v => dset acc ticker v
            | Option.none => acc)
          results)

/-- Operation `fetch_fundamental_data(tickers)` (scrape.py:150). -/
def fetch_fundamental_data (tickers : List String) (apUp : List String → Fetched)
    (now : String) : Except Unit (List (String × PyVal)) :=
  fetch_fundamental_go apUp now (chunk_tickers tickers 3) []

/-- The chunk's recommendation frame after the accessor-level `try` of
scrape.py:198-203: an empty DataFrame on failure. -/
def chunk_rec_df (recUp : List String → DFFetched) (c : List String) : RecDF :=
  match recUp c with
  | DFFetched.raises => ⟨[], []⟩
  | DFFetched.val df => df

/-- The chunk's earnings-trend value after the `try` of scrape.py:205-210:
`{}` on failure. -/
def chunk_earnings (eUp : List String → Fetched) (c : List String) : PyVal :=
  match eUp c with
  | Fetched.raises => PyVal.dict []
  | Fetched.val v => v

/-- The chunk's index-trend value after the `try` of scrape.py:212-217:
`{}` on failure. -/
def chunk_index (iUp : List String → Fetched) (c : List String) : PyVal :=
  match iUp c with
  | Fetched.raises => PyVal.dict []
  | Fetched.val v => v

/-- The `results[ticker] = { 'analysis': ... }` wrapper written for one ticker
of one chunk (scrape.py:311-317 and 321-327). -/
def analysis_entry (recUp : List String → DFFetched)
    (eUp iUp : List String → Fetched) (c : List String) (ticker now : String) :
    List (String × PyVal) :=
  [("analysis",
    analysis_symbol_value (chunk_rec_df recUp c) (chunk_earnings eUp c)
      (chunk_index iUp c) ticker now)]

/-- Chunk loop of `fetch_analysis_data` (scrape.py:193-327): each of the three
accessors is individually guarded, so a raising batch request only degrades
that input to an empty structure; every ticker of the chunk then gets an
`analysis`-wrapped entry (assembled or `"Error"`). -/
def fetch_analysis_go (recUp : List String → DFFetched)
    (eUp iUp : List String → Fetched) (now : String) :
    List (List String) → List (String × List (String × PyVal)) →
      List (String × List (String × PyVal))
  | [], results => results
  | c :: rest, results =>
    fetch_analysis_go recUp eUp iUp now rest
      (c.foldl
        (fun acc ticker => dset acc ticker (analysis_entry recUp eUp iUp c ticker now))
        results)

/-- Operation `fetch_analysis_data(tickers)` (scrape.py:179): total — no exception
escapes this function. -/
def fetch_analysis_data (tickers : List String) (recUp : List String → DFFetched)
    (eUp iUp : List String → Fetched) (now : String) :
    List (String × List (String × PyVal)) :=
  fetch_analysis_go recUp eUp iUp now (chunk_tickers tickers 3) []

/-- The per-symbol record assembled by `combine_data_in_memory`
(scrape.py:352-358): the three fixed categories (each defaulting to `{}`),
then `combined[t].update(analysis[t])` — a shallow merge of the analysis
wrapper's own top-level keys. -/
def combine_entry (live daily fundamentals : List (String × PyVal))
    (analysis : List (String × List (String × PyVal))) (t : String) :
    List (String × PyVal) :=
  let base : List (String × PyVal) :=
    [("live", (dlookup live t).getD (PyVal.dict [])),
     ("daily", (dlookup daily t).getD (PyVal.dict [])),
     ("fundamentals", (dlookup fundamentals t).getD (PyVal.dict []))]
  match dlookup analysis t with
  | some w => w.foldl (fun b kv => dset b kv.1 kv.2) base
  | Option.none => base

/-- Operation `combine_data_in_memory(live, daily, fundamentals, analysis)`
(scrape.py:335): one output record per symbol in the union of the four input
key sets.  Python iterates the union as a `set`; the iteration order is
irrelevant to the result (each symbol is written exactly once), and the union
is modelled as the deduplicated concatenation of the key lists. -/
def combine_data_in_memory (live daily fundamentals : List (String × PyVal))
    (analysis : List (String × List (String × PyVal))) :
    List (String × List (String × PyVal)) :=
  let all_tickers :=
    (live.map Prod.fst ++ daily.map Prod.fst ++ fundamentals.map Prod.fst ++
      analysis.map Prod.fst).dedup
  all_tickers.foldl
    (fun combined t => dset combined t (combine_entry live daily fundamentals analysis t))
    []

/-- A persisted document: symbol → category → value (the JSON file's shape). -/
abbrev StockDoc : Type := List (String × List (String × PyVal))

/-- The merge loop of `save_data` (scrape.py:377-381): ensure the symbol's
record exists, then overwrite exactly the categories present in the new
batch. -/
def save_step (existing_data : StockDoc) (ticker : String)
    (record : List (String × PyVal)) : StockDoc :=
  let acc :=
    if (dlookup existing_data ticker).isSome then existing_data
    else dset existing_data ticker []
  record.foldl
    (fun a kv => dset a ticker (dset ((dlookup a ticker).getD []) kv.1 kv.2))
    acc

/-- The pure read-merge-write core of `save_data`: merge the new batch into
the existing document. -/
def save_merge (existing_data : StockDoc) (data : StockDoc) : StockDoc :=
  data.foldl (fun acc p => save_step acc p.1 p.2) existing_data

/-- Two-level document lookup: the stored value of one (symbol, category)
slot. -/
def dlookup2 (doc : StockDoc) (s c : String) : Option PyVal :=
  match dlookup doc s with
  | some record => dlookup record c
  | Option.none => Option.none

/-- State of the JSON sink file. `truncated` stands for the file contents
left behind when `json.dump` raises after `open(filename, 'w')` has already
truncated the file — not valid JSON from the pipeline's point of view. -/
inductive FileContent where
  | absent : FileContent
  | json : StockDoc → FileContent
  | malformed : FileContent
  | truncated : FileContent

/-- Environment faults injected into one `save_data` call: an I/O failure
while reading, while opening for write, or while serializing. -/
structure SaveFaults where
  readFails : Bool
  openWriteFails : Bool
  dumpFails : Bool

/-- The read phase of `save_data` (scrape.py:369-375): a missing file yields
`{}`; a malformed or truncated file makes `json.load` raise; an I/O fault
fails the read of a well-formed file. -/
def read_existing (c : FileContent) (fl : SaveFaults) : Except Unit StockDoc :=
  match c with
  | FileContent.absent => Except.ok []
  | FileContent.json d => if fl.readFails then Except.error () else Except.ok d
  | FileContent.malformed => Except.error ()
  | FileContent.truncated => Except.error ()

/-- Operation `save_data(data, filename)` (scrape.py:363-388) as a transition on the
sink state.  The whole body is wrapped in `try/except`, so no exception
escapes; but `open(filename, 'w')` truncates the file *before* `json.dump`
runs, so a serialization failure leaves a truncated file behind. -/
def save_data (c : FileContent) (data : StockDoc) (fl : SaveFaults) : FileContent :=
  match read_existing c fl with
  | Except.error _ => c
  | Except.ok existing_data =>
    if fl.openWriteFails then c
    else if fl.dumpFails then FileContent.truncated
    else FileContent.json (save_merge existing_data data)

/-- Strict Python-`or`-free option fallback: the value of `x`, else `y`. -/
def opt_or {α : Type} (x y : Option α) : Option α :=
  match x with
  | some v => some v
  | Option.none => y

/-- C8: for every non-empty symbol list and chunk size k ≥ 1, chunking yields
consecutive non-empty groups of size ≤ k whose concatenation is the original
list in order, and the group boundaries depend only on the list's length,
not its contents. -/
theorem spec_c8_chunking (l l' : List String) (k : Nat) (hne : l ≠ []) (hk : 1 ≤ k) :
    (chunk_tickers l k).flatten = l ∧
    (∀ g ∈ chunk_tickers l k, g ≠ [] ∧ g.length ≤ k) ∧
    (l.length = l'.length →
      (chunk_tickers l k).map List.length = (chunk_tickers l' k).map List.length) := by
  refine ⟨chunk_tickers_flatten l k hk, chunk_tickers_mem l k hk, ?_⟩
  intro hlen
  have h0 : ¬ k = 0 := by omega
  simp only [chunk_tickers, h0, if_false]
  rw [hlen]
  exact chunk_go_map_length l'.length l l' k hlen

/-- Witness for C8 at the concrete list AAPL,MSFT,GOOGL,AMZN with k = 3. -/
theorem spec_c8_chunking_witness :
    (chunk_tickers ["AAPL", "MSFT", "GOOGL", "AMZN"] 3).flatten
      = ["AAPL", "MSFT", "GOOGL", "AMZN"] :=
  (spec_c8_chunking ["AAPL", "MSFT", "GOOGL", "AMZN"] ["A", "B", "C", "D"] 3
    (by decide) (by decide)).1

/-- C9: `clean_text` returns the stripped string when given a string that is
non-empty after stripping, and the caller's default otherwise (non-string
input, empty string, or whitespace-only string); it is a total function.  In
particular whitespace-only input with default None gives None, and
stripping surrounds of " AAPL " gives "AAPL". -/
theorem spec_c9_clean_text (value default : PyVal) :
    (∀ s, value = PyVal.str s → py_strip s ≠ "" → clean_text value default = PyVal.str (py_strip s)) ∧
    (∀ s, value = PyVal.str s → py_strip s = "" → clean_text value default = default) ∧
    ((∀ s, value ≠ PyVal.str s) → clean_text value default = default) ∧
    clean_text (PyVal.str "  ") PyVal.pynone = PyVal.pynone ∧
    clean_text (PyVal.str " AAPL ") PyVal.pynone = PyVal.str "AAPL" := by
  refine ⟨?_, ?_, ?_, ?_, ?_⟩
  · intro s hv hs
    subst hv
    simp [clean_text, hs]
  · intro s hv hs
    subst hv
    simp [clean_text, hs]
  · intro h
    cases value with
    | str s => exact absurd rfl (h s)
    | pynone => rfl
    | num q => rfl
    | bool b => rfl
    | list l => rfl
    | dict d => rfl
  · rfl
  · rfl

/-- Witness for C9 at a concrete non-string input and concrete default. -/
theorem spec_c9_clean_text_witness :
    clean_text (PyVal.num 3) (PyVal.str "fallback") = PyVal.str "fallback" :=
  (spec_c9_clean_text (PyVal.num 3) (PyVal.str "fallback")).2.2.1
    (fun s h => PyVal.noConfusion h)

/-- C3: reducing a counts row is a stable argmax over the declaration order
strongBuy, buy, hold, sell, strongSell: the chosen entry's count bounds every
count, strictly exceeds every count before it in that order, and its key is
mapped through the display-label table; ties at the top break to the first
key, so counts 2,2,0,0,0 give "Strong Buy". -/
theorem spec_c3_dominant_label :
    (∀ counts : RecRow, ∃ l1 b l2,
        counts_list counts = l1 ++ b :: l2 ∧
        (∀ q ∈ counts_list counts, q.2 ≤ b.2) ∧
        (∀ q ∈ l1, q.2 < b.2) ∧
        ∃ lbl, dlookup label_map b.1 = some lbl ∧
          interpret_recommendation counts = lbl) ∧
    interpret_recommendation
      { period := some "0m", strongBuy := some 2, buy := some 2,
        hold := some 0, sell := some 0, strongSell := some 0 } = "Strong Buy" := by
  constructor
  · intro counts
    obtain ⟨l1, b, l2, heq, hfold, hmax, hpre⟩ :=
      foldl_pymax_split (p := ("strongBuy", counts.strongBuy.getD 0))
        (l := [("buy", counts.buy.getD 0), ("hold", counts.hold.getD 0),
               ("sell", counts.sell.getD 0), ("strongSell", counts.strongSell.getD 0)])
    have hinterp : interpret_recommendation counts =
        (dlookup label_map b.1).getD "Unknown" := by
      simp only [interpret_recommendation, counts_list]
      rw [hfold]
    have hbmem : b ∈ counts_list counts := by
      rw [show counts_list counts =
            ("strongBuy", counts.strongBuy.getD 0) ::
              [("buy", counts.buy.getD 0), ("hold", counts.hold.getD 0),
               ("sell", counts.sell.getD 0), ("strongSell", counts.strongSell.getD 0)]
          from rfl, heq]
      exact List.mem_append_right l1 (List.mem_cons_self b l2)
    refine ⟨l1, b, l2, heq, fun q hq => hmax q hq, hpre, ?_⟩
    simp only [counts_list, List.mem_cons, List.not_mem_nil, or_false] at hbmem
    rcases hbmem with hb | hb | hb | hb | hb
    · exact ⟨"Strong Buy", by rw [hb]; rfl, by rw [hinterp, hb]; rfl⟩
    · exact ⟨"Buy", by rw [hb]; rfl, by rw [hinterp, hb]; rfl⟩
    · exact ⟨"Hold", by rw [hb]; rfl, by rw [hinterp, hb]; rfl⟩
    · exact ⟨"Sell", by rw [hb]; rfl, by rw [hinterp, hb]; rfl⟩
    · exact ⟨"Strong Sell", by rw [hb]; rfl, by rw [hinterp, hb]; rfl⟩
  · decide

/-- C10: when each of the five counts is absent or zero — in particular for
the defensive empty fallback row — the all-zero tie breaks to the first
declared key and the reduction returns "Strong Buy", not a sentinel. -/
theorem spec_c10_zero_counts (r : RecRow)
    (h1 : r.strongBuy = Option.none ∨ r.strongBuy = some 0)
    (h2 : r.buy = Option.none ∨ r.buy = some 0)
    (h3 : r.hold = Option.none ∨ r.hold = some 0)
    (h4 : r.sell = Option.none ∨ r.sell = some 0)
    (h5 : r.strongSell = Option.none ∨ r.strongSell = some 0) :
    interpret_recommendation r = "Strong Buy" := by
  have g1 : r.strongBuy.getD 0 = 0 := by rcases h1 with h | h <;> simp [h]
  have g2 : r.buy.getD 0 = 0 := by rcases h2 with h | h <;> simp [h]
  have g3 : r.hold.getD 0 = 0 := by rcases h3 with h | h <;> simp [h]
  have g4 : r.sell.getD 0 = 0 := by rcases h4 with h | h <;> simp [h]
  have g5 : r.strongSell.getD 0 = 0 := by rcases h5 with h | h <;> simp [h]
  simp [interpret_recommendation, counts_list, label_map, dlookup, g1, g2, g3, g4, g5]

/-- Witness for C10: the empty-dict fallback row evaluates to "Strong Buy". -/
theorem spec_c10_zero_counts_witness :
    interpret_recommendation emptyRow = "Strong Buy" :=
  spec_c10_zero_counts emptyRow (Or.inl rfl) (Or.inl rfl) (Or.inl rfl)
    (Or.inl rfl) (Or.inl rfl)

/-- C4: row selection in the recommendation summarizer: an empty frame or a
symbol outside the level-0 index gives exactly ([], "No Data"); otherwise the
output carries the symbol's full ordered row list, and the interpreted row is
the first row with period "0m", else the first row of the symbol's table
order, else (defensively, when the index lists the symbol but no row
qualifies) the empty row. -/
theorem spec_c4_row_selection (df : RecDF) (t : String) :
    ((df.rows.isEmpty ∨ t ∉ df.levels0) →
      process_recommendation_trend df t = ⟨[], "No Data"⟩) ∧
    (¬ (df.rows.isEmpty ∨ t ∉ df.levels0) →
      (process_recommendation_trend df t).recommendation_trend = df_xs df t ∧
      (∀ x, (df_xs df t).find? (fun x => x.period == some "0m") = some x →
        (process_recommendation_trend df t).computed_recommendation =
          interpret_recommendation x) ∧
      ((df_xs df t).find? (fun x => x.period == some "0m") = Option.none →
        ∀ y ys, df_xs df t = y :: ys →
          (process_recommendation_trend df t).computed_recommendation =
            interpret_recommendation y) ∧
      ((df_xs df t).find? (fun x => x.period == some "0m") = Option.none →
        df_xs df t = [] →
          (process_recommendation_trend df t).computed_recommendation =
            interpret_recommendation emptyRow)) := by
  constructor
  · intro h
    simp only [process_recommendation_trend, h, if_pos]
  · intro h
    refine ⟨?_, ?_, ?_, ?_⟩
    · simp only [process_recommendation_trend, h, if_neg, not_false_iff]
    · intro x hx
      simp only [process_recommendation_trend, h, if_neg, not_false_iff, hx]
    · intro hfind y ys hlist
      rw [hlist] at hfind
      simp only [process_recommendation_trend, h, if_neg, not_false_iff, hlist, hfind]
    · intro hfind hlist
      rw [hlist] at hfind
      simp only [process_recommendation_trend, h, if_neg, not_false_iff, hlist, hfind]

/-- Witness for C4: a two-row table for AAPL where the "0m" row is second;
the selection picks it, and the full row list is carried through. -/
theorem spec_c4_row_selection_witness :
    (process_recommendation_trend
        ⟨[("AAPL", { period := some "-1m", buy := some 5 }),
          ("AAPL", { period := some "0m", hold := some 7 })], ["AAPL"]⟩
        "AAPL").computed_recommendation =
      interpret_recommendation { period := some "0m", hold := some 7 } :=
  ((spec_c4_row_selection
      ⟨[("AAPL", { period := some "-1m", buy := some 5 }),
        ("AAPL", { period := some "0m", hold := some 7 })], ["AAPL"]⟩
      "AAPL").2 (by decide)).2.1
    { period := some "0m", hold := some 7 } (by decide)

theorem save_inner_fold (record : List (String × PyVal)) :
    ∀ (a : StockDoc) (t : String) (base : List (String × PyVal)),
      dlookup a t = some base →
      dlookup
          (record.foldl
            (fun a kv => dset a t (dset ((dlookup a t).getD []) kv.1 kv.2)) a) t
        = some (record.foldl (fun d kv => dset d kv.1 kv.2) base) ∧
      ∀ s, s ≠ t →
        dlookup
            (record.foldl
              (fun a kv => dset a t (dset ((dlookup a t).getD []) kv.1 kv.2)) a) s
          = dlookup a s := by
  induction record with
  | nil =>
    intro a t base h
    exact ⟨h, fun s _ => rfl⟩
  | cons kv rest ih =>
    intro a t base h
    have h' : dlookup (dset a t (dset ((dlookup a t).getD []) kv.1 kv.2)) t
        = some (dset base kv.1 kv.2) := by
      rw [dlookup_dset, if_pos rfl, h]
      rfl
    obtain ⟨h1, h2⟩ := ih (dset a t (dset ((dlookup a t).getD []) kv.1 kv.2)) t
      (dset base kv.1 kv.2) h'
    refine ⟨?_, ?_⟩
    · simpa only [List.foldl] using h1
    · intro s hs
      have hstep : dlookup (dset a t (dset ((dlookup a t).getD []) kv.1 kv.2)) s
          = dlookup a s := by
        rw [dlookup_dset, if_neg (fun he => hs he.symm)]
      simpa only [List.foldl, hstep] using h2 s hs

theorem dlookup_save_step_self (existing_data : StockDoc) (t : String)
    (record : List (String × PyVal)) :
    dlookup (save_step existing_data t record) t
      = some (record.foldl (fun d kv => dset d kv.1 kv.2)
          ((dlookup existing_data t).getD [])) := by
  unfold save_step
  cases hb0 : dlookup existing_data t with
  | some base =>
    simp only [hb0, Option.isSome_some, if_true, Option.getD_some]
    exact (save_inner_fold record existing_data t base hb0).1
  | none =>
    simp only [hb0, Option.isSome_none, Bool.false_eq_true, if_false, Option.getD_none]
    have hb : dlookup (dset existing_data t []) t = some [] := by
      rw [dlookup_dset, if_pos rfl]
    exact (save_inner_fold record (dset existing_data t []) t [] hb).1

theorem dlookup_save_step_ne (existing_data : StockDoc) (t : String)
    (record : List (String × PyVal)) (s : String) (hs : s ≠ t) :
    dlookup (save_step existing_data t record) s = dlookup existing_data s := by
  unfold save_step
  cases hb0 : dlookup existing_data t with
  | some base =>
    simp only [hb0, Option.isSome_some, if_true]
    exact (save_inner_fold record existing_data t base hb0).2 s hs
  | none =>
    simp only [hb0, Option.isSome_none, Bool.false_eq_true, if_false]
    rw [(save_inner_fold record (dset existing_data t []) t []
        (by rw [dlookup_dset, if_pos rfl])).2 s hs,
      dlookup_dset, if_neg (fun he => hs he.symm)]

theorem inner_fold_lookup (record : List (String × PyVal)) :
    ∀ (base : List (String × PyVal)) (c : String),
      (record.map Prod.fst).Nodup →
      dlookup (record.foldl (fun d kv => dset d kv.1 kv.2) base) c
        = opt_or (dlookup record c) (dlookup base c) := by
  induction record with
  | nil =>
    intro base c _
    simp [dlookup, opt_or]
  | cons kv rest ih =>
    intro base c hnd
    have hnd' : (rest.map Prod.fst).Nodup := (List.nodup_cons.mp (by simpa using hnd)).2
    have hmem : kv.1 ∉ rest.map Prod.fst := (List.nodup_cons.mp (by simpa using hnd)).1
    simp only [List.foldl]
    rw [ih (dset base kv.1 kv.2) c hnd']
    by_cases h : kv.1 = c
    · have hrest : dlookup rest c = Option.none :=
        dlookup_eq_none_of_not_mem_keys rest c (h ▸ hmem)
      rw [hrest, dlookup_dset, if_pos h]
      simp [dlookup, h, opt_or]
    · rw [dlookup_dset, if_neg h]
      simp [dlookup, h, opt_or]

theorem save_merge_lookup2 (data : StockDoc) :
    ∀ (old : StockDoc) (s c : String),
      (data.map Prod.fst).Nodup →
      (∀ p ∈ data, (p.2.map Prod.fst).Nodup) →
      dlookup2 (save_merge old data) s c
        = opt_or (dlookup2 data s c) (dlookup2 old s c) := by
  induction data with
  | nil =>
    intro old s c _ _
    simp [save_merge, dlookup2, dlookup, opt_or]
  | cons p rest ih =>
    intro old s c hnd hinner
    have hnd' : (rest.map Prod.fst).Nodup := (List.nodup_cons.mp (by simpa using hnd)).2
    have hmem : p.1 ∉ rest.map Prod.fst := (List.nodup_cons.mp (by simpa using hnd)).1
    have hmerge : save_merge old (p :: rest) = save_merge (save_step old p.1 p.2) rest := rfl
    rw [hmerge, ih (save_step old p.1 p.2) s c hnd'
      (fun q hq => hinner q (List.mem_cons_of_mem p hq))]
    by_cases hs : s = p.1
    · have hrest : dlookup rest s = Option.none :=
        dlookup_eq_none_of_not_mem_keys rest s (hs ▸ hmem)
      have hdata : dlookup2 (p :: rest) s c = dlookup p.2 c := by
        simp [dlookup2, dlookup, hs.symm]
      have hrest2 : dlookup2 rest s c = Option.none := by
        simp [dlookup2, hrest]
      have hstep : dlookup2 (save_step old p.1 p.2) s c
          = opt_or (dlookup p.2 c) (dlookup2 old s c) := by
        have h1 : dlookup (save_step old p.1 p.2) s
            = some (p.2.foldl (fun d kv => dset d kv.1 kv.2)
                ((dlookup old p.1).getD [])) := by
          rw [hs]
          exact dlookup_save_step_self old p.1 p.2
        simp only [dlookup2, h1]
        rw [inner_fold_lookup p.2 ((dlookup old p.1).getD []) c (hinner p (by simp))]
        cases hold : dlookup old p.1 with
        | none => simp [hs, hold, dlookup]
        | some r => simp [hs, hold]
      rw [hrest2, hdata, hstep]
      simp [opt_or]
    · have hps : ¬ p.1 = s := fun he => hs he.symm
      have hdata : dlookup2 (p :: rest) s c = dlookup2 rest s c := by
        simp [dlookup2, dlookup, hps]
      have hstep : dlookup2 (save_step old p.1 p.2) s c = dlookup2 old s c := by
        rw [dlookup2, dlookup_save_step_ne old p.1 p.2 s hs, dlookup2]
      rw [hdata, hstep]

/-- C2: persisting a batch merges it pointwise into the stored document:
every (symbol, category) slot present in the new batch takes the new value
and every other slot keeps its prior value; hence no stored category is ever
removed; and persisting AAPL's live record then AAPL's daily record yields
the document holding both. -/
theorem spec_c2_merge_no_delete (old data : StockDoc) (s c : String)
    (L1 D1 : PyVal)
    (hnd : (data.map Prod.fst).Nodup)
    (hinner : ∀ p ∈ data, (p.2.map Prod.fst).Nodup) :
    (dlookup2 (save_merge old data) s c
      = opt_or (dlookup2 data s c) (dlookup2 old s c)) ∧
    ((dlookup2 old s c).isSome → (dlookup2 (save_merge old data) s c).isSome) ∧
    save_merge (save_merge [] [("AAPL", [("live", L1)])]) [("AAPL", [("daily", D1)])]
      = [("AAPL", [("live", L1), ("daily", D1)])] := by
  have h := save_merge_lookup2 data old s c hnd hinner
  refine ⟨h, ?_, rfl⟩
  intro hsome
  rw [h]
  cases hd : dlookup2 data s c with
  | none => simpa [opt_or] using hsome
  | some v => simp [opt_or]

/-- Witness for C2 at a concrete document and batch. -/
theorem spec_c2_merge_no_delete_witness :
    dlookup2 (save_merge [("AAPL", [("live", PyVal.num 1)])]
        [("AAPL", [("daily", PyVal.num 2)])]) "AAPL" "live"
      = opt_or (dlookup2 [("AAPL", [("daily", PyVal.num 2)])] "AAPL" "live")
          (dlookup2 [("AAPL", [("live", PyVal.num 1)])] "AAPL" "live") :=
  (spec_c2_merge_no_delete [("AAPL", [("live", PyVal.num 1)])]
      [("AAPL", [("daily", PyVal.num 2)])] "AAPL" "live" PyVal.pynone PyVal.pynone
      (by decide) (by intro p hp; rw [List.mem_singleton] at hp; subst hp; decide)).1

/-- C6 (amended): `save_data` never lets an exception escape; when the read
phase fails (sink unreachable or malformed/truncated existing document) or
the open-for-write fails, the stored document is unchanged; when
serialization fails after the file has been opened for writing, the document
is left truncated — a durable effect; only the fault-free path writes the
merged document. -/
theorem spec_c6_save_failure_amended (c : FileContent) (data : StockDoc)
    (fl : SaveFaults) :
    (read_existing c fl = Except.error () → save_data c data fl = c) ∧
    (∀ ex, read_existing c fl = Except.ok ex → fl.openWriteFails = true →
      save_data c data fl = c) ∧
    (∀ ex, read_existing c fl = Except.ok ex → fl.openWriteFails = false →
      fl.dumpFails = true → save_data c data fl = FileContent.truncated) ∧
    (∀ ex, read_existing c fl = Except.ok ex → fl.openWriteFails = false →
      fl.dumpFails = false →
      save_data c data fl = FileContent.json (save_merge ex data)) := by
  refine ⟨?_, ?_, ?_, ?_⟩ <;> intros <;> simp [save_data, *]

/-- Witness for C6's amended statement: a malformed existing document leaves
the sink untouched. -/
theorem spec_c6_save_failure_amended_witness :
    save_data FileContent.malformed [("AAPL", [])] ⟨false, false, false⟩
      = FileContent.malformed :=
  (spec_c6_save_failure_amended FileContent.malformed [("AAPL", [])]
      ⟨false, false, false⟩).1 rfl

/-- Counterexample to C6 as stated: a serialization failure during the write
phase is a persistence failure after which the stored document is *not* equal
to its prior state — the file has been truncated. -/
theorem spec_c6_save_failure_counterexample :
    save_data (FileContent.json [("AAPL", [("live", PyVal.num 1)])]) []
        ⟨false, false, true⟩ = FileContent.truncated ∧
    FileContent.json [("AAPL", [("live", PyVal.num 1)])] ≠ FileContent.truncated :=
  ⟨rfl, fun h => FileContent.noConfusion h⟩

theorem foldl_dset_fun_lookup {v : Type} (f : String → v) :
    ∀ (c : List String) (acc : List (String × v)) (s : String),
      dlookup (c.foldl (fun a t => dset a t (f t)) acc) s
        = if s ∈ c then some (f s) else dlookup acc s := by
  intro c
  induction c with
  | nil => intro acc s; simp
  | cons t rest ih =>
    intro acc s
    simp only [List.foldl]
    rw [ih (dset acc t (f t)) s, dlookup_dset]
    by_cases hm : s ∈ rest
    · rw [if_pos hm, if_pos (List.mem_cons_of_mem t hm)]
    · by_cases hts : t = s
      · rw [if_neg hm, if_pos hts, if_pos (by rw [← hts]; exact List.mem_cons_self t rest), hts]
      · rw [if_neg hm, if_neg hts,
          if_neg (by
            intro hmem
            rcases List.mem_cons.mp hmem with h | h
            · exact hts h.symm
            · exact hm h)]

theorem fetch_analysis_go_not_mem (recUp : List String → DFFetched)
    (eUp iUp : List String → Fetched) (now : String) :
    ∀ (chunks : List (List String)) (acc : List (String × List (String × PyVal)))
      (t : String),
      (∀ c ∈ chunks, t ∉ c) →
      dlookup (fetch_analysis_go recUp eUp iUp now chunks acc) t = dlookup acc t := by
  intro chunks
  induction chunks with
  | nil => intro acc t _; rfl
  | cons c rest ih =>
    intro acc t h
    show dlookup (fetch_analysis_go recUp eUp iUp now rest
      (c.foldl (fun acc ticker => dset acc ticker (analysis_entry recUp eUp iUp c ticker now)) acc)) t
        = dlookup acc t
    rw [ih _ t (fun c' hc' => h c' (List.mem_cons_of_mem c hc')),
      foldl_dset_fun_lookup (fun ticker => analysis_entry recUp eUp iUp c ticker now) c acc t,
      if_neg (h c (List.mem_cons_self c rest))]

theorem fetch_analysis_go_mem (recUp : List String → DFFetched)
    (eUp iUp : List String → Fetched) (now : String) :
    ∀ (chunks : List (List String)) (acc : List (String × List (String × PyVal)))
      (t : String),
      (∃ c ∈ chunks, t ∈ c) →
      ∃ c, c ∈ chunks ∧ t ∈ c ∧
        dlookup (fetch_analysis_go recUp eUp iUp now chunks acc) t
          = some (analysis_entry recUp eUp iUp c t now) := by
  intro chunks
  induction chunks with
  | nil =>
    intro acc t h
    rcases h with ⟨c, hc, _⟩
    cases hc
  | cons c rest ih =>
    intro acc t h
    by_cases hr : ∃ c' ∈ rest, t ∈ c'
    · obtain ⟨c', hc', ht', hl⟩ := ih
        (c.foldl (fun acc ticker => dset acc ticker (analysis_entry recUp eUp iUp c ticker now)) acc)
        t hr
      exact ⟨c', List.mem_cons_of_mem c hc', ht', hl⟩
    · have htc : t ∈ c := by
        rcases h with ⟨c0, hc0, ht0⟩
        rcases List.mem_cons.mp hc0 with heq | hc0'
        · exact heq ▸ ht0
        · exact absurd ⟨c0, hc0', ht0⟩ hr
      refine ⟨c, List.mem_cons_self c rest, htc, ?_⟩
      show dlookup (fetch_analysis_go recUp eUp iUp now rest
        (c.foldl (fun acc ticker => dset acc ticker (analysis_entry recUp eUp iUp c ticker now)) acc)) t
          = some (analysis_entry recUp eUp iUp c t now)
      rw [fetch_analysis_go_not_mem recUp eUp iUp now rest _ t
          (fun c' hc' ht' => hr ⟨c', hc', ht'⟩),
        foldl_dset_fun_lookup (fun ticker => analysis_entry recUp eUp iUp c ticker now) c acc t,
        if_pos htc]

theorem fetch_live_go_ok (priceUp : List String → Fetched) (now : String) :
    ∀ (chunks : List (List String)) (results : List (String × PyVal)),
      (∀ c ∈ chunks, priceUp c ≠ Fetched.raises) →
      ∃ m, fetch_live_go priceUp now chunks results = Except.ok m := by
  intro chunks
  induction chunks with
  | nil => intro results _; exact ⟨results, rfl⟩
  | cons c rest ih =>
    intro results h
    cases hc : priceUp c with
    | raises => exact absurd hc (h c (List.mem_cons_self c rest))
    | val pd =>
      obtain ⟨m, hm⟩ := ih
        (c.foldl
          (fun acc ticker =>
            match live_symbol_value pd now ticker with
            | some v => dset acc ticker v
            | Option.none => acc)
          results)
        (fun c' hc' => h c' (List.mem_cons_of_mem c hc'))
      refine ⟨m, ?_⟩
      simp only [fetch_live_go, hc]
      exact hm

theorem fetch_daily_go_ok (sdUp : List String → Fetched) (now : String) :
    ∀ (chunks : List (List String)) (results : List (String × PyVal)),
      (∀ c ∈ chunks, sdUp c ≠ Fetched.raises) →
      ∃ m, fetch_daily_go sdUp now chunks results = Except.ok m := by
  intro chunks
  induction chunks with
  | nil => intro results _; exact ⟨results, rfl⟩
  | cons c rest ih =>
    intro results h
    cases hc : sdUp c with
    | raises => exact absurd hc (h c (List.mem_cons_self c rest))
    | val pd =>
      obtain ⟨m, hm⟩ := ih
        (c.foldl
          (fun acc ticker =>
            match daily_symbol_value pd now ticker with
            | some v => dset acc ticker v
            | Option.none => acc)
          results)
        (fun c' hc' => h c' (List.mem_cons_of_mem c hc'))
      refine ⟨m, ?_⟩
      simp only [fetch_daily_go, hc]
      exact hm

theorem fetch_fundamental_go_ok (apUp : List String → Fetched) (now : String) :
    ∀ (chunks : List (List String)) (results : List (String × PyVal)),
      (∀ c ∈ chunks, apUp c ≠ Fetched.raises) →
      ∃ m, fetch_fundamental_go apUp now chunks results = Except.ok m := by
  intro chunks
  induction chunks with
  | nil => intro results _; exact ⟨results, rfl⟩
  | cons c rest ih =>
    intro results h
    cases hc : apUp c with
    | raises => exact absurd hc (h c (List.mem_cons_self c rest))
    | val pd =>
      obtain ⟨m, hm⟩ := ih
        (c.foldl
          (fun acc ticker =>
            match fundamental_symbol_value pd now ticker with
            | some v => dset acc ticker v
            | Option.none => acc)
          results)
        (fun c' hc' => h c' (List.mem_cons_of_mem c hc'))
      refine ⟨m, ?_⟩
      simp only [fetch_fundamental_go, hc]
      exact hm

/-- Counterexample to C1 as stated: when the upstream batch request for a
group raises during a live fetch, the exception propagates out of
`fetch_live_data` (the accessor sits outside the per-symbol `try`), so the
caller does not receive a mapping. -/
theorem spec_c1_batch_failure_counterexample :
    fetch_live_data ["AAPL"] (fun _ => Fetched.raises) "t0" = Except.error () := rfl

/-- C1 (amended): for live, daily and fundamentals fetching, no exception
propagates *provided no group's batch accessor raises* (per-symbol extraction
failures only omit symbols); a raising batch accessor, however, propagates
and aborts the remaining groups (see the counterexample).  Only the analysis
fetch degrades batch failures to empty fallbacks: it is total and still
yields an entry for every input symbol even when every accessor raises. -/
theorem spec_c1_batch_failure_amended :
    (∀ (tickers : List String) (priceUp : List String → Fetched) (now : String),
        (∀ c ∈ chunk_tickers tickers 3, priceUp c ≠ Fetched.raises) →
        ∃ m, fetch_live_data tickers priceUp now = Except.ok m) ∧
    (∀ (tickers : List String) (sdUp : List String → Fetched) (now : String),
        (∀ c ∈ chunk_tickers tickers 3, sdUp c ≠ Fetched.raises) →
        ∃ m, fetch_daily_data tickers sdUp now = Except.ok m) ∧
    (∀ (tickers : List String) (apUp : List String → Fetched) (now : String),
        (∀ c ∈ chunk_tickers tickers 3, apUp c ≠ Fetched.raises) →
        ∃ m, fetch_fundamental_data tickers apUp now = Except.ok m) ∧
    (∀ (tickers : List String) (recUp : List String → DFFetched)
        (eUp iUp : List String → Fetched) (now t : String), t ∈ tickers →
        (dlookup (fetch_analysis_data tickers recUp eUp iUp now) t).isSome) := by
  refine ⟨?_, ?_, ?_, ?_⟩
  · intro tickers priceUp now h
    exact fetch_live_go_ok priceUp now (chunk_tickers tickers 3) [] h
  · intro tickers sdUp now h
    exact fetch_daily_go_ok sdUp now (chunk_tickers tickers 3) [] h
  · intro tickers apUp now h
    exact fetch_fundamental_go_ok apUp now (chunk_tickers tickers 3) [] h
  · intro tickers recUp eUp iUp now t ht
    obtain ⟨c, _, _, hl⟩ := fetch_analysis_go_mem recUp eUp iUp now
      (chunk_tickers tickers 3) [] t
      (mem_flatten_chunk_tickers tickers 3 (by omega) t ht)
    rw [fetch_analysis_data, hl]
    rfl

/-- Witness for C1's amended statement: a benign upstream lets the live fetch
return a mapping, and a fully raising upstream still leaves the analysis
entry present. -/
theorem spec_c1_batch_failure_amended_witness :
    (∃ m, fetch_live_data ["AAPL"] (fun _ => Fetched.val (PyVal.dict [])) "t0"
      = Except.ok m) ∧
    (dlookup (fetch_analysis_data ["AAPL"] (fun _ => DFFetched.raises)
        (fun _ => Fetched.raises) (fun _ => Fetched.raises) "t0") "AAPL").isSome :=
  ⟨spec_c1_batch_failure_amended.1 ["AAPL"] (fun _ => Fetched.val (PyVal.dict [])) "t0"
      (fun c _ h => Fetched.noConfusion h),
   spec_c1_batch_failure_amended.2.2.2 ["AAPL"] (fun _ => DFFetched.raises)
      (fun _ => Fetched.raises) (fun _ => Fetched.raises) "t0" "AAPL"
      (List.mem_cons_self "AAPL" [])⟩

/-- C5: a per-symbol analysis-assembly exception is mapped to exactly the
Error sentinel record, and every symbol of the input batch has an analysis
entry in the output — the fetched value for a symbol is always the
`analysis`-wrapped value computed from its (last) chunk's three accessor
results, assembled or sentinel. -/
theorem spec_c5_analysis_error_isolation :
    (∀ (df : RecDF) (ed idx : PyVal) (t now : String),
        assemble_analysis df ed idx t now = Except.error () →
        analysis_symbol_value df ed idx t now = error_analysis now) ∧
    (∀ (tickers : List String) (recUp : List String → DFFetched)
        (eUp iUp : List String → Fetched) (now t : String), t ∈ tickers →
        ∃ c, c ∈ chunk_tickers tickers 3 ∧ t ∈ c ∧
          dlookup (fetch_analysis_data tickers recUp eUp iUp now) t
            = some (analysis_entry recUp eUp iUp c t now)) := by
  constructor
  · intro df ed idx t now h
    unfold analysis_symbol_value
    rw [h]
  · intro tickers recUp eUp iUp now t ht
    exact fetch_analysis_go_mem recUp eUp iUp now (chunk_tickers tickers 3) [] t
      (mem_flatten_chunk_tickers tickers 3 (by omega) t ht)

/-- Witness for C5: with a non-dict earnings batch value, TSLA's assembly
raises, yet TSLA is present in the output with its chunk's entry. -/
theorem spec_c5_analysis_error_isolation_witness :
    ∃ c, c ∈ chunk_tickers ["TSLA"] 3 ∧ "TSLA" ∈ c ∧
      dlookup (fetch_analysis_data ["TSLA"] (fun _ => DFFetched.raises)
          (fun _ => Fetched.val (PyVal.str "error")) (fun _ => Fetched.raises) "t0")
        "TSLA"
        = some (analysis_entry (fun _ => DFFetched.raises)
            (fun _ => Fetched.val (PyVal.str "error")) (fun _ => Fetched.raises)
            ["TSLA"] "TSLA" "t0") :=
  spec_c5_analysis_error_isolation.2 ["TSLA"] (fun _ => DFFetched.raises)
    (fun _ => Fetched.val (PyVal.str "error")) (fun _ => Fetched.raises) "t0" "TSLA"
    (List.mem_cons_self "TSLA" [])

theorem combine_lookup (live daily fundamentals : List (String × PyVal))
    (analysis : List (String × List (String × PyVal))) (t : String) :
    dlookup (combine_data_in_memory live daily fundamentals analysis) t
      = if (dlookup live t).isSome ∨ (dlookup daily t).isSome ∨
           (dlookup fundamentals t).isSome ∨ (dlookup analysis t).isSome
        then some (combine_entry live daily fundamentals analysis t)
        else Option.none := by
  have h := foldl_dset_fun_lookup
    (fun s => combine_entry live daily fundamentals analysis s)
    ((live.map Prod.fst ++ daily.map Prod.fst ++ fundamentals.map Prod.fst ++
      analysis.map Prod.fst).dedup) [] t
  have hiff : t ∈ (live.map Prod.fst ++ daily.map Prod.fst ++
      fundamentals.map Prod.fst ++ analysis.map Prod.fst).dedup ↔
      ((dlookup live t).isSome ∨ (dlookup daily t).isSome ∨
        (dlookup fundamentals t).isSome ∨ (dlookup analysis t).isSome) := by
    simp [List.mem_dedup, dlookup_isSome_iff_mem_keys]
  rw [show combine_data_in_memory live daily fundamentals analysis =
      ((live.map Prod.fst ++ daily.map Prod.fst ++ fundamentals.map Prod.fst ++
        analysis.map Prod.fst).dedup).foldl
        (fun combined t => dset combined t (combine_entry live daily fundamentals analysis t))
        [] from rfl, h]
  by_cases hm : t ∈ (live.map Prod.fst ++ daily.map Prod.fst ++
      fundamentals.map Prod.fst ++ analysis.map Prod.fst).dedup
  · rw [if_pos hm, if_pos (hiff.mp hm)]
  · rw [if_neg hm, if_neg (fun hd => hm (hiff.mpr hd))]
    rfl

/-- C7: the combiner's output has an entry exactly for the union of the four
input key sets; the per-symbol record holds the three fixed categories (each
defaulting to the empty record) with the analysis wrapper's own top-level
keys shallow-merged in (so a one-key wrapper contributes a top-level
`analysis` key, not a nested one); and the output for a symbol depends only
on that symbol's four inputs. -/
theorem spec_c7_combine (live daily fundamentals : List (String × PyVal))
    (analysis : List (String × List (String × PyVal))) (t : String) :
    (dlookup (combine_data_in_memory live daily fundamentals analysis) t
      = if (dlookup live t).isSome ∨ (dlookup daily t).isSome ∨
           (dlookup fundamentals t).isSome ∨ (dlookup analysis t).isSome
        then some (combine_entry live daily fundamentals analysis t)
        else Option.none) ∧
    (∀ a, dlookup analysis t = some [("analysis", a)] →
      dlookup (combine_entry live daily fundamentals analysis t) "analysis" = some a ∧
      dlookup (combine_entry live daily fundamentals analysis t) "live"
        = some ((dlookup live t).getD (PyVal.dict [])) ∧
      dlookup (combine_entry live daily fundamentals analysis t) "daily"
        = some ((dlookup daily t).getD (PyVal.dict [])) ∧
      dlookup (combine_entry live daily fundamentals analysis t) "fundamentals"
        = some ((dlookup fundamentals t).getD (PyVal.dict []))) ∧
    (∀ live' daily' fundamentals' analysis',
      dlookup live' t = dlookup live t → dlookup daily' t = dlookup daily t →
      dlookup fundamentals' t = dlookup fundamentals t →
      dlookup analysis' t = dlookup analysis t →
      dlookup (combine_data_in_memory live' daily' fundamentals' analysis') t
        = dlookup (combine_data_in_memory live daily fundamentals analysis) t) := by
  refine ⟨combine_lookup live daily fundamentals analysis t, ?_, ?_⟩
  · intro a ha
    simp only [combine_entry, ha]
    exact ⟨rfl, rfl, rfl, rfl⟩
  · intro live' daily' fundamentals' analysis' h1 h2 h3 h4
    have hent : combine_entry live' daily' fundamentals' analysis' t
        = combine_entry live daily fundamentals analysis t := by
      simp only [combine_entry, h1, h2, h3, h4]
    rw [combine_lookup, combine_lookup, h1, h2, h3, h4, hent]

/-- Witness for C7: one symbol present only in the analysis input; its
combined record carries the wrapper's `analysis` key at the top level next to
the three defaulted categories. -/
theorem spec_c7_combine_witness :
    dlookup (combine_entry [] [] [] [("AAPL", [("analysis", PyVal.num 7)])] "AAPL")
      "analysis" = some (PyVal.num 7) :=
  ((spec_c7_combine [] [] [] [("AAPL", [("analysis", PyVal.num 7)])] "AAPL").2.1
    (PyVal.num 7) rfl).1
